import Mathlib

/-!
Verification of the KuiX IPC substrate and worker lifecycle protocol.

This file gives a shallow embedding of the relevant parts of the KuiX
sources (SocketServer.py, SocketClient.py, IpcServer.py, IpcClient.py,
core.py, KxProcess.py, BaseStrategy.py, Exceptions.py) and proves or
refutes the stated properties about them.  Machine integers do not occur;
byte streams are modelled as lists of naturals, Python dicts as
association lists with Python dict update semantics, and Python
exceptions as an explicit error type threaded through Except.
-/

namespace KuiX

/-! ### Python dict model

Python dict primitives used by the embedded code.  dictInsert models
`d[k] = v` (replaces the value in place for an existing key, appends a
fresh key at the end, matching insertion order), dictGet models `d[k]` /
`k in d` lookups, dictErase models `del d[k]`. -/

def dictGet {β : Type} : List (String × β) → String → Option β
  | [], _ => none
  | (k, v) :: t, key => if k = key then some v else dictGet t key

def dictInsert {β : Type} : List (String × β) → String → β → List (String × β)
  | [], key, v => [(key, v)]
  | (k, w) :: t, key, v => if k = key then (k, v) :: t else (k, w) :: dictInsert t key v

def dictErase {β : Type} : List (String × β) → String → List (String × β)
  | [], _ => []
  | (k, v) :: t, key => if k = key then dictErase t key else (k, v) :: dictErase t key

/-! ### Frame transport receive loop (SocketServer.py / SocketClient.py)

Utils.py defines `EOT = "04"`; the networking code uses it as
`int(EOT, 16)`, the byte 4.  -/

def EOT : Nat := 4

/-- Modelled from the spec: the keepalive value IGNORE is imported from
Utils.py by both networking modules, but its definition is missing from
the sources; the spec (design notes) says it is a single byte sent to
detect half-closed sockets.  We fix an arbitrary single byte distinct
from the EOT sentinel; no theorem below depends on the choice. -/
def IGNORE : List Nat := [5]

/-- flush_buffer (SocketServer.py lines 123-129, SocketClient.py lines
107-114): when the buffer differs from IGNORE, the accumulated bytes are
JSON-decoded and delivered to on_message_received, and the buffer is
reset.  We model delivery at the byte level: the emitted element is the
byte string handed to json.loads.  A buffer that fails JSON decoding (in
particular the empty buffer of a zero-length frame) raises inside the
loop instead of delivering; the round-trip hypotheses below exclude that
case, since the UTF-8 encoding of a JSON object is nonempty and well
formed. -/
def flushBuffer (buffer : List Nat) : List (List Nat) :=
  if buffer = IGNORE then [] else [buffer]

/-- The byte-accumulation scan over one received chunk (SocketServer.py
lines 163-169, SocketClient.py lines 140-146): each byte is compared with
the EOT sentinel; on EOT the buffer is flushed and the for loop breaks,
discarding the remaining bytes of the chunk; otherwise the byte is
appended to the buffer.  Returns the new buffer and the emitted frames
(at most one, because of the break). -/
def scanChunk : List Nat → List Nat → List Nat × List (List Nat)
  | buffer, [] => (buffer, [])
  | buffer, b :: rest =>
    if b = EOT then ([], flushBuffer buffer)
    else scanChunk (buffer ++ [b]) rest

/-- One iteration of the receive loop for one recv chunk (SocketServer.py
lines 147-169, SocketClient.py lines 124-146): a chunk equal to IGNORE is
skipped, otherwise the chunk is scanned byte by byte. -/
def stepChunk (st : List Nat × List (List Nat)) (data : List Nat) :
    List Nat × List (List Nat) :=
  if data = IGNORE then st
  else
    let r := scanChunk st.1 data
    (r.1, st.2 ++ r.2)

/-- The receive loop of a connection run over a list of recv chunks,
starting from an empty buffer; the result is the list of byte frames
delivered to on_message_received, in order.  This is the common decode
loop of SocketServer.listen_for_connection and
SocketClient.listen_for_connection, whose buffering code is identical. -/
def runReceiver (chunks : List (List Nat)) : List (List Nat) :=
  (chunks.foldl stepChunk ([], [])).2

/-- Frame encoding (SocketServer.send_data line 235, SocketClient.send_data
line 187): the UTF-8 JSON bytes of the message followed by the single
sentinel byte EOT. -/
def encodeFrame (m : List Nat) : List Nat := m ++ [EOT]

/-- A chunking cs delivers the message bytes m as one sentinel-terminated
frame: the chunks concatenate to the encoded frame, the message bytes
are nonempty and contain no sentinel (JSON escapes control characters, so an encoded JSON
document contains no raw 0x04 byte), the message is not the keepalive
value, and every chunk is nonempty and not the keepalive value. -/
def Frames (m : List Nat) (cs : List (List Nat)) : Prop :=
  cs.flatten = encodeFrame m ∧ m ≠ [] ∧ EOT ∉ m ∧ m ≠ IGNORE ∧ ∀ c ∈ cs, c ≠ [] ∧ c ≠ IGNORE

/-! ### Authentication handshake (SocketServer.accept_new_connections) -/

structure AuthPayload where
  identifier : String
  key : String
deriving DecidableEq

/-- Handshake reply sent back to the client: the JSON object with status
valid or status invalid (SocketServer.py lines 93 and 99). -/
inductive AuthReply where
  | valid
  | invalid
deriving DecidableEq

/-- Core-side connection state: the servers connection table
(SocketServer.connections, a dict identifier to socket, here identifier
to an abstract connection handle numbering the accepted sockets) and the
Core host table (KuiX.kx_processes, a plain list of identifiers). -/
structure CoreNet where
  connections : List (String × Nat)
  kxProcesses : List String
deriving DecidableEq

/-- One authentication exchange of the accept loop (SocketServer.py lines
78-101) together with the connection-accepted hook that the Core installs
in start (core.py line 150, appending the identifier to kx_processes).
conn is the handle of the socket being authenticated.  Returns the reply
sent to the client, whether the server closed the connection, and the new
state.  A valid key stores the connection with a plain dict assignment
(line 94, overwriting any previous connection under the same identifier)
and triggers on_connection_accepted; an invalid key replies invalid,
closes the socket and leaves the tables untouched. -/
def acceptAuth (authKey : String) (st : CoreNet) (p : AuthPayload) (conn : Nat) :
    AuthReply × Bool × CoreNet :=
  if p.key = authKey then
    (.valid, false,
      { connections := dictInsert st.connections p.identifier conn,
        kxProcesses := st.kxProcesses ++ [p.identifier] })
  else
    (.invalid, true, st)

/-- The accept loop run over a sequence of authenticating connections;
the n-th processed connection gets handle n. -/
def runAccept (authKey : String) : CoreNet → Nat → List AuthPayload → CoreNet
  | st, _, [] => st
  | st, n, p :: ps => runAccept authKey (acceptAuth authKey st p n).2.2 (n + 1) ps

/-- Specification helper: the handle of the last connection that
authenticated with the configured key under the given identifier, when
handles are numbered from n. -/
def lastAccepted (authKey : String) : Nat → String → List AuthPayload → Option Nat
  | _, _, [] => none
  | n, id, p :: ps =>
    match lastAccepted authKey (n + 1) id ps with
    | some c => some c
    | none => if p.key = authKey ∧ p.identifier = id then some n else none

/-! ### Python exceptions (Exceptions.py) -/

/-- Python exception values as they matter here: either a TypeError raised
by the interpreter itself, or an exception instance of a named class
carrying a message. -/
inductive PyExc where
  | typeError (msg : String)
  | exc (ty : String) (msg : String)
deriving DecidableEq

/-- Embeds the expression `X(msg) + e` used at every raise site of the
sources.  GenericException (Exceptions.py lines 27-52) defines only
__init__, add_ctx, __str__ and serialize; neither it nor Exception defines
__add__ or __radd__, so the + between two exception instances raises
TypeError (unsupported operand type) at the raise site, and the intended
typed exception x is discarded. -/
def genericExceptionAdd (x e : PyExc) : PyExc :=
  .typeError "unsupported operand types for +"

/-- Embeds the calls `cast(e, e_type=..., msg=...)` (KxProcess.py) and
`cast(e, f-string, WorkerMethodCallError)` (KxProcess.__close_process__):
Exceptions.cast is declared as cast(e, e_type=None) (Exceptions.py line
9), so both call shapes raise TypeError (unexpected keyword argument msg,
resp. too many positional arguments) instead of returning a wrapped
exception. -/
def castCallBug : PyExc :=
  .typeError "cast got an unexpected keyword argument msg"

/-! ### send_data (SocketClient.py lines 177-194, SocketServer.py lines 214-242) -/

/-- SocketClient.send_data: sendallResult is the outcome of
connection.sendall of the encoded frame.  On success the on_message_sent
event fires and the method returns; on failure the except block evaluates
`SocketClientSendError(msg) + e`, which raises TypeError. -/
def SocketClient_send_data (sendallResult : Except PyExc Unit) : Except PyExc Unit :=
  match sendallResult with
  | .ok () => .ok ()
  | .error e =>
    .error (genericExceptionAdd (.exc "SocketClientSendError" "error while sending data to server") e)

/-- SocketServer.send_data: the identifier is first looked up in the
connection table; a missing identifier evaluates the name
SocketServerClientNotFound, which Exceptions.py does not define (it only
defines SocketServerCliIdentifierNotFound), so that branch raises
NameError.  Otherwise sendall is attempted and a failure evaluates
`SocketServerSendError(msg) + e`, which raises TypeError. -/
def SocketServer_send_data (connections : List (String × Nat)) (identifier : String)
    (sendallResult : Except PyExc Unit) : Except PyExc Unit :=
  match dictGet connections identifier with
  | none => .error (.exc "NameError" "name SocketServerClientNotFound is not defined")
  | some _ =>
    match sendallResult with
    | .ok () => .ok ()
    | .error e =>
      .error (genericExceptionAdd (.exc "SocketServerSendError" "error while sending data to a client") e)

/-! ### Request multiplexer pending table (IpcServer.py / IpcClient.py) -/

/-- Writes the response slot of a pending entry:
`self.blocking_requests[rid][1] = data` (IpcServer.py line 99,
IpcClient.py line 90).  The pending table maps a rid to its response
slot; the semaphore of the entry is abstracted away, since we model the
completed execution of the exchange. -/
def setSlot {α : Type} (tbl : List (String × Option α)) (rid : String) (d : α) :
    List (String × Option α) :=
  tbl.map (fun kv => if kv.1 = rid then (kv.1, some d) else kv)

/-- handle_request RESPONSE branch (IpcServer.py lines 91-100, IpcClient.py
lines 78-91): if the rid is pending (the retry sleeps do not change the
table), the response slot is written and the semaphore released; an
unknown rid is logged and the message dropped. -/
def handleResponse {α : Type} (tbl : List (String × Option α)) (rid : String) (d : α) :
    List (String × Option α) :=
  if (dictGet tbl rid).isSome then setSlot tbl rid d else tbl

/-- A completed blocking request (IpcServer.send_blocking_request lines
145-188 and, identically, IpcClient.send_blocking_request lines 134-166):
the caller inserts the pending entry [semaphore, None] under a fresh rid,
sends the BLOCKING frame, and blocks; the receive loop delivers the
RESPONSE carrying the same rid (handleResponse); the caller then wakes,
reads the response slot, deletes the pending entry and returns the slot
value.  Returns the final pending table and the returned value. -/
def completedBlockingCall {α : Type} (tbl : List (String × Option α)) (rid : String) (d : α) :
    List (String × Option α) × Option α :=
  let t1 := dictInsert tbl rid none
  let t2 := handleResponse t1 rid d
  (dictErase t2 rid, (dictGet t2 rid).join)

/-! ### KuiX.send_and_block (core.py lines 232-248) -/

/-- Python values passed through the IPC call surface: strings and flat
JSON-like dicts. -/
inductive PyVal where
  | str (s : String)
  | dictV (kvs : List (String × Int))
deriving DecidableEq

/-- Positional binding of an argument list against the signature of
IpcServer.send_blocking_request(self, identifier, endpoint, data)
(IpcServer.py line 145): three required parameters; any other count
raises TypeError before the body runs. -/
def bindBlockingRequestArgs (args : List PyVal) :
    Except PyExc (PyVal × PyVal × PyVal) :=
  match args with
  | [a, b, c] => .ok (a, b, c)
  | _ => .error (.typeError "send_blocking_request missing a required positional argument")

/-- KuiX.send_and_block (core.py line 245):
`return self.ipc_server.send_blocking_request(endpoint, data)` — only two
positional arguments are passed and process_identifier is dropped, so the
call raises TypeError (missing the data argument) before any request is
sent; the surrounding except clause catches only SocketServerSendError,
so the TypeError propagates to the caller. -/
def KuiX_send_and_block (processIdentifier endpoint : String) (data : PyVal) :
    Except PyExc (PyVal × PyVal × PyVal) :=
  bindBlockingRequestArgs [PyVal.str endpoint, data]

/-! ### Worker lifecycle (BaseStrategy.py, KxProcess.py) -/

/-- Worker status values (BaseStrategy.py StrategyStatus). -/
inductive WStatus where
  | stopped
  | starting
  | running
  | stopping
deriving DecidableEq

/-- Worker record as far as the lifecycle is concerned: whether
self.thread is set, and the current worker_status. -/
structure Worker where
  thread : Bool
  status : WStatus
deriving DecidableEq

/-- BaseStrategy.__init__ (lines 27-33): no thread, status STOPPED. -/
def newWorker : Worker := { thread := false, status := .stopped }

/-- Host-side state for one KxProcess: registered strategy names,
the worker table (KxProcess.workers), and an instrumentation counter
recording how many times the host machinery has invoked a worker
__open__ method. -/
structure Host where
  strategies : List String
  workers : List (String × Worker)
  opens : Nat
deriving DecidableEq

/-- BaseStrategy.__open__ (lines 45-51): opens each registered component
in insertion order.  In this model an invocation bumps the host
instrumentation counter; note that no code path of KxProcess.py invokes
this method (create_worker lines 179-200 only instantiates the class and
stores the instance, and start_worker only calls __start__). -/
def strategyOpen (st : Host) : Host := { st with opens := st.opens + 1 }

/-- The four lifecycle operations the Core dispatches to a host for one
worker identifier. -/
inductive Op where
  | create
  | start
  | stop
  | close
deriving DecidableEq, Fintype

/-- One lifecycle operation applied to the host for the fixed strategy
name S and worker identifier W, returning the new host state, the list of
values successively taken by the worker status field during the
operation, and whether the operation was a close_worker that succeeded.
 Embeds:
 - create: KxProcess.create_worker (lines 179-200) — unknown strategy or
   existing identifier raise (no state change); otherwise the strategy is
   instantiated (BaseStrategy.__init__ sets status STOPPED) and stored;
 - start: KxProcess.start_worker calling BaseStrategy.__start__ (lines
   53-68) — a live thread raises WorkerAlreadyStarted; otherwise the
   components are started, the thread created, status set STARTING, the
   thread started, status set RUNNING;
 - stop: KxProcess.stop_worker calling BaseStrategy.__stop__ (lines
   70-99) with a cooperative strategy loop — no thread raises
   WorkerAlreadyStopped; otherwise status is set STOPPING, the strategy
   loop observes it in check_status and sets STOPPED, and the thread
   handle is dropped;
 - close: KxProcess.close_worker (lines 250-273) calling
   BaseStrategy.__close__ (lines 101-126) — a missing worker raises, and
   otherwise __stop__ runs first when a thread is live (the
   WorkerAlreadyStopped of an already stopped worker is swallowed), then
   close_strategy and the component closes, then the record is deleted. -/
def applyOp (st : Host) (op : Op) : Host × List WStatus × Bool :=
  match op with
  | .create =>
    if "S" ∈ st.strategies then
      match dictGet st.workers "W" with
      | some _ => (st, [], false)
      | none => ({ st with workers := dictInsert st.workers "W" newWorker },
          [WStatus.stopped], false)
    else (st, [], false)
  | .start =>
    match dictGet st.workers "W" with
    | none => (st, [], false)
    | some w =>
      if w.thread then (st, [], false)
      else ({ st with workers := dictInsert st.workers "W" { thread := true, status := .running } },
        [WStatus.starting, WStatus.running], false)
  | .stop =>
    match dictGet st.workers "W" with
    | none => (st, [], false)
    | some w =>
      if w.thread then
        ({ st with workers := dictInsert st.workers "W" { thread := false, status := .stopped } },
          [WStatus.stopping, WStatus.stopped], false)
      else (st, [], false)
  | .close =>
    match dictGet st.workers "W" with
    | none => (st, [], false)
    | some w =>
      ({ st with workers := dictErase st.workers "W" },
        (if w.thread then [WStatus.stopping, WStatus.stopped] else []), true)

/-- Accumulated run state: host state, the concatenated status trace, and
whether some close_worker succeeded so far. -/
structure RunSt where
  host : Host
  trace : List WStatus
  closedOk : Bool
deriving DecidableEq

def stepRun (st : RunSt) (op : Op) : RunSt :=
  let r := applyOp st.host op
  { host := r.1, trace := st.trace ++ r.2.1, closedOk := st.closedOk || r.2.2 }

def runFrom (st : RunSt) : List Op → RunSt
  | [] => st
  | op :: ops => runFrom (stepRun st op) ops

/-- Host with the strategy S registered and no workers, as after
register_strategy and before the first worker operation. -/
def initHost : Host := { strategies := ["S"], workers := [], opens := 0 }

def runOps (ops : List Op) : RunSt :=
  runFrom { host := initHost, trace := [], closedOk := false } ops

/-- The canonical status trace of the spec:
STOPPED, STARTING, RUNNING, STOPPING, STOPPED. -/
def canonicalTrace : List WStatus :=
  [.stopped, .starting, .running, .stopping, .stopped]

/-- Boolean test that l₁ is an initial segment of l₂. -/
def isInitialSegmentOf : List WStatus → List WStatus → Bool
  | [], _ => true
  | _ :: _, [] => false
  | a :: t₁, b :: t₂ => decide (a = b) && isInitialSegmentOf t₁ t₂

def allOps : List Op := [.create, .start, .stop, .close]

/-- All operation sequences of length at most n. -/
def seqsLe : Nat → List (List Op)
  | 0 => [[]]
  | n + 1 => [] :: (allOps.map (fun o => (seqsLe n).map (o :: ·))).flatten

/-- Decidable check used to settle the lifecycle property by enumeration:
for a duplicate-free operation sequence, the status trace is an initial
segment of the canonical trace, and after a successful close_worker the
record is absent. -/
def checkOps (l : List Op) : Bool :=
  !(decide l.Nodup) ||
    (isInitialSegmentOf (runOps l).trace canonicalTrace &&
      (!(runOps l).closedOk || decide (dictGet (runOps l).host.workers "W" = none)))

/-! ### close_worker error path (KxProcess.close_worker lines 250-273) -/

/-- KxProcess.close_worker with the outcome of the worker __close__ call
made explicit: a missing identifier raises WorkerNotFoundError, which the
except clause hands to the buggy cast call (raising TypeError); when
__close__ raises, the same except clause runs and `del
self.workers[identifier]` is never executed, so the table is unchanged;
only when __close__ returns normally is the record deleted.  Returns the
resulting worker table and the exception that propagates, if any. -/
def KxProcess_close_worker (workers : List (String × Worker)) (id : String)
    (closeResult : Except PyExc Unit) : List (String × Worker) × Option PyExc :=
  match dictGet workers id with
  | none => (workers, some castCallBug)
  | some _ =>
    match closeResult with
    | .ok () => (dictErase workers id, none)
    | .error _ => (workers, some castCallBug)

/-! ### close_process ordering (KxProcess.__close_process__ lines 77-103) -/

/-- Events of interest during __close_process__. -/
inductive PEvent where
  | closeWorkerAttempt
  | sendResponse (rid : String)
  | closeIpc
  | killProcess
deriving DecidableEq

/-- KxProcess.__close_process__ run with the per-worker outcomes of the
`worker.close_worker()` attribute call made explicit (BaseStrategy
defines no close_worker method, so for base workers the call raises
AttributeError; a user class could define one).  Each failing attempt
enters the except clause whose cast call with three positional arguments
itself raises TypeError, aborting the method before the response is sent.
When every attempt succeeds, the success response for the close_process
rid is sent, then the IPC client is closed, then the process is killed
with SIGKILL.  Returns the ordered event trace and the exception that
propagates, if any. -/
def closeProcessRun : List (Except PyExc Unit) → String → List PEvent × Option PyExc
  | [], rid => ([.sendResponse rid, .closeIpc, .killProcess], none)
  | r :: rs, rid =>
    match r with
    | .ok () =>
      let rest := closeProcessRun rs rid
      (.closeWorkerAttempt :: rest.1, rest.2)
    | .error _ => ([.closeWorkerAttempt], some castCallBug)

end KuiX

namespace KuiX

theorem scanChunk_no_eot (data : List Nat) (h : EOT ∉ data) :
    ∀ buffer, scanChunk buffer data = (buffer ++ data, []) := by
  induction data with
  | nil => intro buffer; simp [scanChunk]
  | cons b rest ih =>
    intro buffer
    have hb : ¬ b = EOT := by
      intro hb; exact h (hb ▸ List.mem_cons_self b rest)
    have hr : EOT ∉ rest := fun hr => h (List.mem_cons_of_mem b hr)
    simp [scanChunk, hb, ih hr]

theorem scanChunk_eot_last (c : List Nat) (h : EOT ∉ c) :
    ∀ buffer, scanChunk buffer (c ++ [EOT]) = ([], flushBuffer (buffer ++ c)) := by
  induction c with
  | nil => intro buffer; simp [scanChunk]
  | cons b rest ih =>
    intro buffer
    have hb : ¬ b = EOT := by
      intro hb; exact h (hb ▸ List.mem_cons_self b rest)
    have hr : EOT ∉ rest := fun hr => h (List.mem_cons_of_mem b hr)
    simp [scanChunk, hb, ih hr]

theorem exists_first_eot_split (c : List Nat) (h : EOT ∈ c) :
    ∃ c₁ c₂, c = c₁ ++ EOT :: c₂ ∧ EOT ∉ c₁ := by
  induction c with
  | nil => cases h
  | cons b rest ih =>
    by_cases hb : b = EOT
    · exact ⟨[], rest, by simp [hb], by simp⟩
    · have hr : EOT ∈ rest := by
        rcases List.mem_cons.mp h with h1 | h2
        · exact absurd h1.symm hb
        · exact h2
      obtain ⟨c₁, c₂, hc, hn⟩ := ih hr
      refine ⟨b :: c₁, c₂, by simp [hc], ?_⟩
      intro hmem
      rcases List.mem_cons.mp hmem with h1 | h2
      · exact hb h1.symm
      · exact hn h2

theorem append_singleton_mid_inj (x : Nat) :
    ∀ (a b a2 b2 : List Nat), x ∉ a → x ∉ b →
      a ++ x :: a2 = b ++ x :: b2 → a = b ∧ a2 = b2 := by
  intro a
  induction a with
  | nil =>
    intro b a2 b2 _ hb h
    cases b with
    | nil => simpa using h
    | cons y t =>
      exfalso
      have hx : x = y := by simpa using congrArg (fun l => l.head?) h
      exact hb (hx ▸ List.mem_cons_self y t)
  | cons y t ih =>
    intro b a2 b2 ha hb h
    cases b with
    | nil =>
      exfalso
      have hx : y = x := by simpa using congrArg (fun l => l.head?) h
      exact ha (hx ▸ List.mem_cons_self y t)
    | cons z s =>
      have hyz : y = z := by simpa using congrArg (fun l => l.head?) h
      have htail : t ++ x :: a2 = s ++ x :: b2 := by
        simpa [hyz] using congrArg (fun l => l.tail) h
      have ha' : x ∉ t := fun hx => ha (List.mem_cons_of_mem y hx)
      have hb' : x ∉ s := fun hx => hb (List.mem_cons_of_mem z hx)
      obtain ⟨h1, h2⟩ := ih s a2 b2 ha' hb' htail
      exact ⟨by simp [hyz, h1], h2⟩

theorem eq_nil_of_flatten_eq_nil (cs : List (List Nat)) (h : ∀ c ∈ cs, c ≠ [])
    (hj : cs.flatten = []) : cs = [] := by
  cases cs with
  | nil => rfl
  | cons c rest =>
    exfalso
    have : c = [] ∧ rest.flatten = [] := by simpa using hj
    exact h c (List.mem_cons_self c rest) this.1

theorem foldl_stepChunk_frame (m : List Nat) (hm : EOT ∉ m) (hmi : m ≠ IGNORE) :
    ∀ (cs : List (List Nat)) (buffer : List Nat) (out : List (List Nat)),
      buffer ++ cs.flatten = encodeFrame m → EOT ∉ buffer →
      (∀ c ∈ cs, c ≠ [] ∧ c ≠ IGNORE) →
      List.foldl stepChunk (buffer, out) cs = ([], out ++ [m]) := by
  intro cs
  induction cs with
  | nil =>
    intro buffer out he hb _
    exfalso
    have hbuf : buffer = m ++ [EOT] := by simpa [encodeFrame] using he
    exact hb (hbuf ▸ List.mem_append_right m (List.mem_singleton.mpr rfl))
  | cons c rest ih =>
    intro buffer out he hb hcs
    obtain ⟨hcne, hci⟩ := hcs c (List.mem_cons_self c rest)
    have hrest : ∀ d ∈ rest, d ≠ [] ∧ d ≠ IGNORE :=
      fun d hd => hcs d (List.mem_cons_of_mem c hd)
    by_cases hec : EOT ∈ c
    · obtain ⟨c₁, c₂, hcsplit, hc₁⟩ := exists_first_eot_split c hec
      have hb1 : EOT ∉ buffer ++ c₁ := by
        intro hx
        rcases List.mem_append.mp hx with h1 | h2
        · exact hb h1
        · exact hc₁ h2
      have heq : (buffer ++ c₁) ++ EOT :: (c₂ ++ rest.flatten) = m ++ EOT :: [] := by
        have := he
        rw [hcsplit] at this
        simpa [encodeFrame, List.append_assoc] using this
      obtain ⟨hpre, hpost⟩ :=
        append_singleton_mid_inj EOT (buffer ++ c₁) m (c₂ ++ rest.flatten) [] hb1 hm heq
      have hc2 : c₂ = [] := (List.append_eq_nil.mp hpost).1
      have hrj : rest.flatten = [] := (List.append_eq_nil.mp hpost).2
      have hrnil : rest = [] := eq_nil_of_flatten_eq_nil rest (fun d hd => (hrest d hd).1) hrj
      have hstep : stepChunk (buffer, out) c = ([], out ++ [m]) := by
        rw [hcsplit, hc2]
        have hscan : scanChunk buffer (c₁ ++ [EOT]) = ([], flushBuffer (buffer ++ c₁)) :=
          scanChunk_eot_last c₁ hc₁ buffer
        have hciNow : ¬ c₁ ++ EOT :: [] = IGNORE := by
          rw [hcsplit, hc2] at hci; simpa using hci
        simp [stepChunk, hciNow, hscan, flushBuffer, hpre, hmi]
      rw [hrnil]
      simpa using hstep
    · have hstep : stepChunk (buffer, out) c = (buffer ++ c, out) := by
        simp [stepChunk, hci, scanChunk_no_eot c hec]
      have he' : (buffer ++ c) ++ rest.flatten = encodeFrame m := by
        simpa [List.append_assoc] using he
      have hb' : EOT ∉ buffer ++ c := by
        intro hx
        rcases List.mem_append.mp hx with h1 | h2
        · exact hb h1
        · exact hec h2
      calc List.foldl stepChunk (buffer, out) (c :: rest)
          = List.foldl stepChunk (stepChunk (buffer, out) c) rest := rfl
        _ = List.foldl stepChunk (buffer ++ c, out) rest := by rw [hstep]
        _ = ([], out ++ [m]) := ih (buffer ++ c) out he' hb' hrest

theorem runReceiver_forall₂_aux (msgs : List (List Nat)) (css : List (List (List Nat)))
    (h : List.Forall₂ Frames msgs css) :
    ∀ out, List.foldl stepChunk ([], out) css.flatten = ([], out ++ msgs) := by
  induction h with
  | nil => intro out; simp
  | @cons m cs msgs' css' hf _ ih =>
    intro out
    obtain ⟨hjoin, hne, hm, hmi, hcs⟩ := hf
    have hframe : List.foldl stepChunk ([], out) cs = ([], out ++ [m]) :=
      foldl_stepChunk_frame m hm hmi cs [] out (by simpa using hjoin) (by simp) hcs
    calc List.foldl stepChunk ([], out) (cs :: css').flatten
        = List.foldl stepChunk (List.foldl stepChunk ([], out) cs) css'.flatten := by
          simp [List.foldl_append]
      _ = List.foldl stepChunk ([], out ++ [m]) css'.flatten := by rw [hframe]
      _ = ([], (out ++ [m]) ++ msgs') := ih (out ++ [m])
      _ = ([], out ++ m :: msgs') := by simp

end KuiX

namespace KuiX

theorem dictGet_dictInsert_self {β : Type} (tbl : List (String × β)) (k : String) (v : β) :
    dictGet (dictInsert tbl k v) k = some v := by
  induction tbl with
  | nil => simp [dictInsert, dictGet]
  | cons kv t ih =>
    obtain ⟨k1, v1⟩ := kv
    by_cases h : k1 = k <;> simp [dictInsert, dictGet, h, ih]

theorem dictGet_dictInsert_ne {β : Type} (tbl : List (String × β)) (k k2 : String) (v : β)
    (h : k ≠ k2) : dictGet (dictInsert tbl k v) k2 = dictGet tbl k2 := by
  induction tbl with
  | nil => simp [dictInsert, dictGet, h]
  | cons kv t ih =>
    obtain ⟨k1, v1⟩ := kv
    by_cases h1 : k1 = k
    · subst h1
      simp [dictInsert, dictGet, h]
    · simp [dictInsert, dictGet, h1, ih]

theorem dictInsert_of_get_none {β : Type} (tbl : List (String × β)) (k : String) (v : β)
    (h : dictGet tbl k = none) : dictInsert tbl k v = tbl ++ [(k, v)] := by
  induction tbl with
  | nil => simp [dictInsert]
  | cons kv t ih =>
    obtain ⟨k1, v1⟩ := kv
    by_cases h1 : k1 = k
    · simp [dictGet, h1] at h
    · simp [dictGet, h1] at h
      simp [dictInsert, h1, ih h]

theorem dictErase_append {β : Type} (a b : List (String × β)) (k : String) :
    dictErase (a ++ b) k = dictErase a k ++ dictErase b k := by
  induction a with
  | nil => simp [dictErase]
  | cons kv t ih =>
    obtain ⟨k1, v1⟩ := kv
    by_cases h1 : k1 = k <;> simp [dictErase, h1, ih]

theorem dictErase_of_get_none {β : Type} (tbl : List (String × β)) (k : String)
    (h : dictGet tbl k = none) : dictErase tbl k = tbl := by
  induction tbl with
  | nil => simp [dictErase]
  | cons kv t ih =>
    obtain ⟨k1, v1⟩ := kv
    by_cases h1 : k1 = k
    · simp [dictGet, h1] at h
    · simp [dictGet, h1] at h
      simp [dictErase, h1, ih h]

/-- C4: for every handshake payload received by the accepting side, a key
equal to the configured auth_key makes the server reply with status
valid, keep the connection open and record the identifier (mapped to this
connection) in the connection table; any other key makes it reply with
status invalid, close the connection, and leave the state, in particular
the connection table, unchanged, so the refused identifier is not
registered by this handshake. -/
theorem acceptAuth_handshake (authKey : String) (st : CoreNet) (p : AuthPayload) (conn : Nat) :
    (p.key = authKey →
      (acceptAuth authKey st p conn).1 = .valid ∧
      (acceptAuth authKey st p conn).2.1 = false ∧
      dictGet (acceptAuth authKey st p conn).2.2.connections p.identifier = some conn) ∧
    (p.key ≠ authKey →
      (acceptAuth authKey st p conn).1 = .invalid ∧
      (acceptAuth authKey st p conn).2.1 = true ∧
      (acceptAuth authKey st p conn).2.2 = st) := by
  constructor
  · intro h
    simp [acceptAuth, h, dictGet_dictInsert_self]
  · intro h
    simp [acceptAuth, h]

/-- Witness for acceptAuth_handshake at the literal inputs of the spec
scenarios 1 and 2. -/
theorem acceptAuth_handshake_witness :
    (acceptAuth "k" ⟨[], []⟩ ⟨"C1", "k"⟩ 0).1 = .valid ∧
    dictGet (acceptAuth "k" ⟨[], []⟩ ⟨"C1", "k"⟩ 0).2.2.connections "C1" = some 0 ∧
    (acceptAuth "k" ⟨[], []⟩ ⟨"C1", "wrong"⟩ 0).1 = .invalid ∧
    (acceptAuth "k" ⟨[], []⟩ ⟨"C1", "wrong"⟩ 0).2.1 = true ∧
    (acceptAuth "k" ⟨[], []⟩ ⟨"C1", "wrong"⟩ 0).2.2 = (⟨[], []⟩ : CoreNet) := by
  obtain ⟨hv, _⟩ := acceptAuth_handshake "k" ⟨[], []⟩ ⟨"C1", "k"⟩ 0
  obtain ⟨_, hi⟩ := acceptAuth_handshake "k" ⟨[], []⟩ ⟨"C1", "wrong"⟩ 0
  have a := hv rfl
  have b := hi (by decide)
  exact ⟨a.1, a.2.2, b.1, b.2.1, b.2.2⟩

/-- C3 counterexample: two clients authenticating with the correct key
under the same identifier are both accepted; the connection table then
holds the connection of the second client (handle 1, not handle 0 of the
first), and the Core host table contains the identifier twice, so the
claims that the first connection is kept and that identifiers inside Core
are unique at all times are both false. -/
theorem duplicate_identifier_not_refused :
    dictGet (runAccept "k" ⟨[], []⟩ 0
        [⟨"C1", "k"⟩, ⟨"C1", "k"⟩]).connections "C1" = some 1 ∧
    (some 1 : Option Nat) ≠ some 0 ∧
    (runAccept "k" ⟨[], []⟩ 0 [⟨"C1", "k"⟩, ⟨"C1", "k"⟩]).kxProcesses = ["C1", "C1"] ∧
    ¬ (runAccept "k" ⟨[], []⟩ 0 [⟨"C1", "k"⟩, ⟨"C1", "k"⟩]).kxProcesses.Nodup := by
  refine ⟨by decide, by decide, by decide, by decide⟩

theorem runAccept_kxProcesses (authKey : String) :
    ∀ (ps : List AuthPayload) (st : CoreNet) (n : Nat),
      (runAccept authKey st n ps).kxProcesses
        = st.kxProcesses ++ (ps.filter (fun p => p.key = authKey)).map (fun p => p.identifier) := by
  intro ps
  induction ps with
  | nil => intro st n; simp [runAccept]
  | cons p ps ih =>
    intro st n
    by_cases hk : p.key = authKey
    · have := ih (acceptAuth authKey st p n).2.2 (n + 1)
      rw [runAccept, this]
      simp [acceptAuth, hk]
    · have := ih (acceptAuth authKey st p n).2.2 (n + 1)
      rw [runAccept, this]
      simp [acceptAuth, hk]

theorem runAccept_connections (authKey id : String) :
    ∀ (ps : List AuthPayload) (st : CoreNet) (n : Nat),
      dictGet (runAccept authKey st n ps).connections id
        = (lastAccepted authKey n id ps).elim (dictGet st.connections id) some := by
  intro ps
  induction ps with
  | nil => intro st n; simp [runAccept, lastAccepted]
  | cons p ps ih =>
    intro st n
    rw [runAccept, ih (acceptAuth authKey st p n).2.2 (n + 1)]
    by_cases hk : p.key = authKey
    · by_cases hid : p.identifier = id
      · cases hrest : lastAccepted authKey (n + 1) id ps with
        | some c => simp [lastAccepted, hrest]
        | none =>
          simp [lastAccepted, hrest, hk, hid, acceptAuth]
          rw [← hid, dictGet_dictInsert_self]
      · cases hrest : lastAccepted authKey (n + 1) id ps with
        | some c => simp [lastAccepted, hrest]
        | none =>
          simp [lastAccepted, hrest, hk, hid, acceptAuth]
          rw [dictGet_dictInsert_ne _ _ _ _ hid]
    · cases hrest : lastAccepted authKey (n + 1) id ps with
      | some c => simp [lastAccepted, hrest]
      | none => simp [lastAccepted, hrest, hk, acceptAuth]

/-- C3 (amended): a client authenticating with the correct key under an
already-registered identifier is accepted again, not refused: the
connection table maps each identifier to the connection of the last
client that authenticated under it (the dict assignment overwrites the
earlier connection), and the Core host table records the identifier once
per accepted authentication, so the same identifier can appear several
times. -/
theorem accept_last_writer_wins (authKey id : String) (ps : List AuthPayload)
    (st : CoreNet) (n : Nat) :
    (runAccept authKey st n ps).kxProcesses
        = st.kxProcesses ++ (ps.filter (fun p => p.key = authKey)).map (fun p => p.identifier) ∧
    dictGet (runAccept authKey st n ps).connections id
        = (lastAccepted authKey n id ps).elim (dictGet st.connections id) some :=
  ⟨runAccept_kxProcesses authKey ps st n, runAccept_connections authKey id ps st n⟩

end KuiX

namespace KuiX

/-- C2 counterexample: a single received chunk carrying two consecutive
encoded frames (two copies of the two-byte JSON document with bytes 123,
125) delivers only the first message: the scan loop breaks at the first
sentinel and discards the rest of the chunk, so concatenating the
encodings within a single received chunk does not round-trip. -/
theorem framing_single_chunk_drops_second_frame :
    runReceiver [encodeFrame [123, 125] ++ encodeFrame [123, 125]] = [[123, 125]] ∧
    runReceiver [encodeFrame [123, 125] ++ encodeFrame [123, 125]] ≠ [[123, 125], [123, 125]] := by
  refine ⟨by decide, by decide⟩

/-- C2 (amended): the framing round-trip holds chunk by chunk: if every
message is delivered as a group of nonempty chunks whose concatenation is
the encoded frame of the message — so every sentinel byte arrives as the
last byte of its chunk, in particular one frame per chunk or one frame
split across several chunks — then the receive loop delivers exactly the
sequence of messages, in order, on both the server-side and the
client-side loops (whose decode code is identical).  Bytes that follow a
sentinel inside one chunk are discarded by the loop, so general
concatenation inside one chunk is excluded. -/
theorem framing_roundtrip_chunkwise (msgs : List (List Nat)) (css : List (List (List Nat)))
    (h : List.Forall₂ Frames msgs css) : runReceiver css.flatten = msgs := by
  have hfold := runReceiver_forall₂_aux msgs css h []
  have h2 := congrArg Prod.snd hfold
  simpa [runReceiver] using h2

/-- Witness for framing_roundtrip_chunkwise: one message, one chunk. -/
theorem framing_roundtrip_chunkwise_witness :
    runReceiver (List.flatten [[[123, 125, 4]]]) = [[123, 125]] := by
  have h : List.Forall₂ Frames [[123, 125]] [[[123, 125, 4]]] := by
    refine List.Forall₂.cons ?_ List.Forall₂.nil
    refine ⟨by decide, by decide, by decide, by decide, by decide⟩
  exact framing_roundtrip_chunkwise [[123, 125]] [[[123, 125, 4]]] h

theorem dictGet_append_last {β : Type} (tbl : List (String × β)) (k : String) (v : β)
    (h : dictGet tbl k = none) : dictGet (tbl ++ [(k, v)]) k = some v := by
  induction tbl with
  | nil => simp [dictGet]
  | cons kv t ih =>
    obtain ⟨k1, v1⟩ := kv
    by_cases h1 : k1 = k
    · simp [dictGet, h1] at h
    · simp [dictGet, h1] at h
      simp [dictGet, h1, ih h]

theorem setSlot_of_get_none {α : Type} (tbl : List (String × Option α)) (k : String) (d : α)
    (h : dictGet tbl k = none) : setSlot tbl k d = tbl := by
  induction tbl with
  | nil => simp [setSlot]
  | cons kv t ih =>
    obtain ⟨k1, v1⟩ := kv
    by_cases h1 : k1 = k
    · simp [dictGet, h1] at h
    · simp [dictGet, h1] at h
      have h2 := ih h
      simp [setSlot, h1] at h2 ⊢
      exact h2

/-- C5: a blocking request that completes leaves no pending entry: for a
fresh rid, the pending table after the call returns equals the table
before the call (in particular it has no entry for rid), and the returned
value is the data field of the RESPONSE that carried the rid.  This holds
for IpcServer.send_blocking_request and IpcClient.send_blocking_request
alike, whose pending-table code is identical. -/
theorem blocking_call_no_leak {α : Type} (tbl : List (String × Option α)) (rid : String)
    (d : α) (h : dictGet tbl rid = none) :
    (completedBlockingCall tbl rid d).2 = some d ∧
    (completedBlockingCall tbl rid d).1 = tbl ∧
    dictGet (completedBlockingCall tbl rid d).1 rid = none := by
  have hins : dictInsert tbl rid (none : Option α) = tbl ++ [(rid, none)] :=
    dictInsert_of_get_none tbl rid none h
  have hget1 : dictGet (tbl ++ [(rid, (none : Option α))]) rid = some none :=
    dictGet_append_last tbl rid none h
  have hslot : setSlot (tbl ++ [(rid, (none : Option α))]) rid d = tbl ++ [(rid, some d)] := by
    have hmap : setSlot (tbl ++ [(rid, (none : Option α))]) rid d
        = setSlot tbl rid d ++ setSlot [(rid, (none : Option α))] rid d := by
      simp [setSlot]
    rw [hmap, setSlot_of_get_none tbl rid d h]
    simp [setSlot]
  have ht2 : handleResponse (dictInsert tbl rid none) rid d = tbl ++ [(rid, some d)] := by
    rw [hins]
    simp [handleResponse, hget1, hslot]
  have hget2 : dictGet (tbl ++ [(rid, some d)]) rid = some (some d) :=
    dictGet_append_last tbl rid (some d) h
  have herase : dictErase (tbl ++ [(rid, some d)]) rid = tbl := by
    rw [dictErase_append, dictErase_of_get_none tbl rid h]
    simp [dictErase]
  refine ⟨?_, ?_, ?_⟩
  · simp [completedBlockingCall, ht2, hget2]
  · simp [completedBlockingCall, ht2, herase]
  · simp [completedBlockingCall, ht2, herase, h]

/-- Witness for blocking_call_no_leak on the empty pending table. -/
theorem blocking_call_no_leak_witness :
    (completedBlockingCall ([] : List (String × Option Nat)) "r" 42).2 = some 42 ∧
    (completedBlockingCall ([] : List (String × Option Nat)) "r" 42).1 = [] ∧
    dictGet (completedBlockingCall ([] : List (String × Option Nat)) "r" 42).1 "r" = none :=
  blocking_call_no_leak [] "r" 42 (by decide)

/-- C1: KuiX.send_and_block never forwards the request: the call on core.py
line 245 passes only endpoint and data to
IpcServer.send_blocking_request, dropping process_identifier, so for
every host identifier, endpoint and data dict the call raises TypeError
at argument binding instead of returning the response data produced by
the host handler. -/
theorem send_and_block_raises_type_error (pid ep : String) (d : PyVal) :
    KuiX_send_and_block pid ep d =
      .error (.typeError "send_blocking_request missing a required positional argument") := rfl

/-- C6: when the underlying socket write fails, send_data does not raise
the typed SendError of its side: the raise site evaluates
`SendError(msg) + e` and GenericException defines no __add__, so the
TypeError of the unsupported + operation propagates instead, on both the
server side (with the connection present) and the client side; the
propagated exception is not an exception instance of any class. -/
theorem send_data_write_failure_raises_type_error
    (connections : List (String × Nat)) (identifier : String) (e : PyExc)
    (h : (dictGet connections identifier).isSome = true) :
    SocketServer_send_data connections identifier (.error e)
        = .error (.typeError "unsupported operand types for +") ∧
    SocketClient_send_data (.error e)
        = .error (.typeError "unsupported operand types for +") ∧
    (∀ ty msg, PyExc.typeError "unsupported operand types for +" ≠ .exc ty msg) := by
  obtain ⟨c, hc⟩ := Option.isSome_iff_exists.mp h
  refine ⟨?_, rfl, ?_⟩
  · simp [SocketServer_send_data, hc, genericExceptionAdd]
  · intro ty msg hcon
    cases hcon

/-- Witness for send_data_write_failure_raises_type_error with one
registered connection and a failing write. -/
theorem send_data_write_failure_witness :
    SocketServer_send_data [("C1", 0)] "C1" (.error (.exc "OSError" "broken pipe"))
      = .error (.typeError "unsupported operand types for +") :=
  (send_data_write_failure_raises_type_error [("C1", 0)] "C1"
    (.exc "OSError" "broken pipe") (by decide)).1

/-- C10: when the __close__ call of a worker raises, close_worker does not
remove the worker record: the del statement after the call is skipped,
the table is returned unchanged and the worker stays addressable under
its identifier, while an exception propagates to the caller. -/
theorem close_worker_error_keeps_record (workers : List (String × Worker)) (id : String)
    (e : PyExc) (h : (dictGet workers id).isSome = true) :
    (KxProcess_close_worker workers id (.error e)).1 = workers ∧
    dictGet (KxProcess_close_worker workers id (.error e)).1 id = dictGet workers id ∧
    (KxProcess_close_worker workers id (.error e)).2.isSome = true := by
  obtain ⟨w, hw⟩ := Option.isSome_iff_exists.mp h
  simp [KxProcess_close_worker, hw]

/-- Witness for close_worker_error_keeps_record on a one-worker table. -/
theorem close_worker_error_keeps_record_witness :
    (KxProcess_close_worker [("W", newWorker)] "W" (.error (.exc "ValueError" "boom"))).1
        = [("W", newWorker)] ∧
    dictGet (KxProcess_close_worker [("W", newWorker)] "W"
        (.error (.exc "ValueError" "boom"))).1 "W" = dictGet [("W", newWorker)] "W" ∧
    (KxProcess_close_worker [("W", newWorker)] "W" (.error (.exc "ValueError" "boom"))).2.isSome
        = true :=
  close_worker_error_keeps_record [("W", newWorker)] "W" (.exc "ValueError" "boom") (by decide)

/-- C9: in every execution of __close_process__, whenever the transport
close or the SIGKILL event occurs in the trace at all, the trace ends
with the success response followed by the transport close followed by the
kill, and none of those three events occurs earlier; so the response is
always sent before the transport is closed and before the process is
terminated, and the process never exits before the response has been
sent.  (When a worker close attempt fails, the method aborts before any
of the three events; the response is then never sent, but neither does
the process exit.) -/
theorem close_process_response_precedes_exit (results : List (Except PyExc Unit)) (rid : String)
    (h : PEvent.closeIpc ∈ (closeProcessRun results rid).1 ∨
         PEvent.killProcess ∈ (closeProcessRun results rid).1) :
    ∃ pre, (closeProcessRun results rid).1
        = pre ++ [.sendResponse rid, .closeIpc, .killProcess] ∧
      PEvent.closeIpc ∉ pre ∧ PEvent.killProcess ∉ pre ∧ PEvent.sendResponse rid ∉ pre := by
  induction results with
  | nil => exact ⟨[], rfl, by simp, by simp, by simp⟩
  | cons r rs ih =>
    cases r with
    | ok u =>
      cases u
      have hmem : PEvent.closeIpc ∈ (closeProcessRun rs rid).1 ∨
          PEvent.killProcess ∈ (closeProcessRun rs rid).1 := by
        rcases h with h1 | h1
        · left
          simpa [closeProcessRun] using h1
        · right
          simpa [closeProcessRun] using h1
      obtain ⟨pre, hpre, hc, hk, hs⟩ := ih hmem
      refine ⟨.closeWorkerAttempt :: pre, ?_, ?_, ?_, ?_⟩
      · simp [closeProcessRun, hpre]
      · intro hmem2
        rcases List.mem_cons.mp hmem2 with h2 | h2
        · cases h2
        · exact hc h2
      · intro hmem2
        rcases List.mem_cons.mp hmem2 with h2 | h2
        · cases h2
        · exact hk h2
      · intro hmem2
        rcases List.mem_cons.mp hmem2 with h2 | h2
        · cases h2
        · exact hs h2
    | error e =>
      exfalso
      rcases h with h1 | h1
      · simp [closeProcessRun] at h1
      · simp [closeProcessRun] at h1

/-- Witness for close_process_response_precedes_exit with no workers. -/
theorem close_process_response_precedes_exit_witness :
    ∃ pre, (closeProcessRun [] "r0").1
        = pre ++ [.sendResponse "r0", .closeIpc, .killProcess] ∧
      PEvent.closeIpc ∉ pre ∧ PEvent.killProcess ∉ pre ∧ PEvent.sendResponse "r0" ∉ pre :=
  close_process_response_precedes_exit [] "r0" (Or.inl (by decide))

end KuiX

namespace KuiX

theorem applyOp_opens (st : Host) (op : Op) : (applyOp st op).1.opens = st.opens := by
  cases op with
  | create =>
    simp only [applyOp]
    split
    · split <;> rfl
    · rfl
  | start =>
    simp only [applyOp]
    split
    · rfl
    · split <;> rfl
  | stop =>
    simp only [applyOp]
    split
    · rfl
    · split <;> rfl
  | close =>
    simp only [applyOp]
    split <;> rfl

theorem runFrom_opens : ∀ (ops : List Op) (st : RunSt),
    (runFrom st ops).host.opens = st.host.opens := by
  intro ops
  induction ops with
  | nil => intro st; rfl
  | cons op ops ih =>
    intro st
    calc (runFrom st (op :: ops)).host.opens
        = (runFrom (stepRun st op) ops).host.opens := rfl
      _ = (stepRun st op).host.opens := ih (stepRun st op)
      _ = st.host.opens := by simp [stepRun, applyOp_opens]

/-- C7 counterexample: running create_worker and then the first
start_worker on a fresh identifier performs zero invocations of the
worker __open__ method, not exactly one: no code path of
KxProcess.create_worker or start_worker calls __open__. -/
theorem create_worker_does_not_invoke_open :
    (runOps [Op.create, Op.start]).host.opens = 0 ∧
    (runOps [Op.create, Op.start]).host.opens ≠ 1 := by
  refine ⟨by decide, by decide⟩

/-- C7 (amended): create_worker instantiates the strategy class and
registers the worker with initial status STOPPED without invoking
__open__; in fact no sequence of host lifecycle operations ever invokes
the __open__ method of a worker (it is only available for user code to
call directly). -/
theorem host_never_invokes_open (ops : List Op) : (runOps ops).host.opens = 0 := by
  have h := runFrom_opens ops { host := initHost, trace := [], closedOk := false }
  simpa [runOps, initHost] using h

theorem isInitialSegmentOf_iff :
    ∀ l₁ l₂ : List WStatus, isInitialSegmentOf l₁ l₂ = true ↔ ∃ t, l₂ = l₁ ++ t := by
  intro l₁
  induction l₁ with
  | nil =>
    intro l₂
    simp [isInitialSegmentOf]
  | cons a t ih =>
    intro l₂
    cases l₂ with
    | nil => simp [isInitialSegmentOf]
    | cons b t₂ =>
      constructor
      · intro h
        have h1 : a = b ∧ isInitialSegmentOf t t₂ = true := by
          simpa [isInitialSegmentOf, Bool.and_eq_true, decide_eq_true_iff] using h
        obtain ⟨u, hu⟩ := (ih t₂).mp h1.2
        exact ⟨u, by simp [h1.1, hu]⟩
      · rintro ⟨u, hu⟩
        have h2 : b = a ∧ t₂ = t ++ u := by simpa using hu
        have h3 := (ih t₂).mpr ⟨u, h2.2⟩
        simp [isInitialSegmentOf, h2.1, h3]

theorem seqsLe_mem : ∀ (n : Nat) (l : List Op), l.length ≤ n → l ∈ seqsLe n := by
  intro n
  induction n with
  | zero =>
    intro l h
    have hl : l = [] := List.eq_nil_of_length_eq_zero (Nat.le_zero.mp h)
    simp [seqsLe, hl]
  | succ n ih =>
    intro l h
    cases l with
    | nil => simp [seqsLe]
    | cons o t =>
      have ht : t ∈ seqsLe n := ih t (Nat.le_of_succ_le_succ h)
      have ho : o ∈ allOps := by cases o <;> simp [allOps]
      simp only [seqsLe, List.mem_cons, List.mem_flatten]
      right
      exact ⟨(seqsLe n).map (o :: ·), List.mem_map.mpr ⟨o, ho, rfl⟩,
        List.mem_map.mpr ⟨t, ht, rfl⟩⟩

theorem op_nodup_length_le (l : List Op) (h : l.Nodup) : l.length ≤ 4 := by
  have h1 := h.length_le_card
  have h2 : Fintype.card Op = 4 := rfl
  rw [h2] at h1
  exact h1

set_option maxRecDepth 100000 in
theorem checkOps_all_seqsLe4 : (seqsLe 4).all checkOps = true := by decide

/-- C8 counterexample: the operation sequence create_worker, start_worker,
stop_worker, start_worker is accepted by the host (after a completed stop
the thread handle is cleared, so a second start succeeds) and produces
the status trace STOPPED, STARTING, RUNNING, STOPPING, STOPPED, STARTING,
RUNNING, which is not an initial segment of the canonical trace; so the
claim does not hold for every sequence of the four operations. -/
theorem lifecycle_restart_escapes_canonical_trace :
    (runOps [Op.create, Op.start, Op.stop, Op.start]).trace
        = [WStatus.stopped, .starting, .running, .stopping, .stopped, .starting, .running] ∧
    ¬ ∃ t, canonicalTrace = (runOps [Op.create, Op.start, Op.stop, Op.start]).trace ++ t := by
  constructor
  · decide
  · rintro ⟨t, ht⟩
    have htr : (runOps [Op.create, Op.start, Op.stop, Op.start]).trace
        = [WStatus.stopped, .starting, .running, .stopping, .stopped, .starting, .running] := by
      decide
    rw [htr] at ht
    have hl := congrArg List.length ht
    simp [canonicalTrace] at hl

/-- C8 (amended): for a fresh worker identifier and any sequence of
create_worker, start_worker, stop_worker, close_worker in which each
operation is applied at most once, the sequence of worker status values
is an initial segment of STOPPED, STARTING, RUNNING, STOPPING, STOPPED,
and after a successful close_worker the worker record is absent from the
host worker table.  (Re-starting a worker after a completed stop is
allowed by the code and leaves the canonical trace, hence the
restriction.) -/
theorem lifecycle_nodup_canonical (ops : List Op) (h : ops.Nodup) :
    (∃ t, canonicalTrace = (runOps ops).trace ++ t) ∧
    ((runOps ops).closedOk = true → dictGet (runOps ops).host.workers "W" = none) := by
  have hlen : ops.length ≤ 4 := op_nodup_length_le ops h
  have hmem : ops ∈ seqsLe 4 := seqsLe_mem 4 ops hlen
  have hall := List.all_eq_true.mp checkOps_all_seqsLe4 ops hmem
  unfold checkOps at hall
  rw [decide_eq_true h] at hall
  simp only [Bool.not_true, Bool.false_or, Bool.and_eq_true] at hall
  obtain ⟨h1, h2⟩ := hall
  constructor
  · exact (isInitialSegmentOf_iff (runOps ops).trace canonicalTrace).mp h1
  · intro hc
    rw [hc] at h2
    simp only [Bool.not_true, Bool.false_or] at h2
    exact of_decide_eq_true h2

/-- Witness for lifecycle_nodup_canonical on the canonical sequence. -/
theorem lifecycle_nodup_canonical_witness :
    ([Op.create, Op.start, Op.stop, Op.close] : List Op).Nodup ∧
    (∃ t, canonicalTrace = (runOps [Op.create, Op.start, Op.stop, Op.close]).trace ++ t) ∧
    ((runOps [Op.create, Op.start, Op.stop, Op.close]).closedOk = true →
      dictGet (runOps [Op.create, Op.start, Op.stop, Op.close]).host.workers "W" = none) :=
  ⟨by decide, lifecycle_nodup_canonical [Op.create, Op.start, Op.stop, Op.close] (by decide)⟩

end KuiX
